import Mathlib

/-
Shallow embedding of the core of the finance-matching-engine repository
(order book, matching sweep, validators, instrument registry, statistics,
engine entry points), together with theorems settling the frozen claims.

Conventions of the embedding:
* C++ `double` prices and notionals are modelled as exact rationals (ℚ).
* C++ `int` quantities, ids and counters are modelled as ℤ.
* `std::chrono::system_clock::time_point` values are modelled as ℕ ticks.
* `std::map<double, std::deque<Order>, Cmp>` is modelled as an association
  list of (price, queue) pairs kept sorted by the map's comparator; the
  per-price `std::deque` is a Lean `List` (front = begin()).
* The sweep loop of `OrderBook::matchOrders` is translated with an explicit
  fuel argument bounding the number of loop iterations; every iteration
  that continues the loop removes at least one order from the book (the
  matched side whose quantity reaches zero is erased by
  `cleanupExecutedOrders`), so `orderCount book + 1` units of fuel are
  provably sufficient and the fuel-exhaustion branch is never taken.
-/

namespace Engine

/-- Time-in-force of an order (Order.hpp). -/
inductive TimeInForce where
  | GTD
  | DAY
deriving DecidableEq, Repr

/-- Side of an order (Order.hpp). -/
inductive OrderType where
  | BID
  | ASK
deriving DecidableEq, Repr

/-- Price-limit kind of an order (Order.hpp). -/
inductive LimitType where
  | LIMIT
  | NONE
deriving DecidableEq, Repr

/-- Lifecycle state of an instrument (Instrument.hpp). -/
inductive State where
  | ACTIVE
  | INACTIVE
  | SUSPENDED
  | DELISTED
deriving DecidableEq, Repr

/-- A tradable instrument (Instrument.hpp / Instrument.cpp). -/
structure Instrument where
  idinstrument : Int
  marketIdentificationCode : String
  tradingCurrency : String
  name : String
  issue : Int
  state : State
  refprice : ℚ
  idtradinggroup : Int
  lotsize : Int
  pricedecimal : Nat
  currentorderid : Int
  currenttradeid : Int
  idapf : Int
deriving DecidableEq, Repr

/-- A trading order (Order.hpp). -/
structure Order where
  idorder : Int
  marketIdentificationCode : String
  tradingCurrency : String
  priority : Nat
  price : ℚ
  quantity : Int
  originalqty : Int
  timeinforce : TimeInForce
  ordertype : OrderType
  limitType : LimitType
  idinstrument : Int
  idfirm : Int
  expirationDate : Nat
deriving DecidableEq, Repr

/-- A completed trade (Trading.hpp). -/
structure Trade where
  tradeId : Int
  buyOrderId : Int
  sellOrderId : Int
  marketIdentificationCode : String
  tradingCurrency : String
  price : ℚ
  quantity : Int
  timestamp : Nat
deriving DecidableEq, Repr

/-- Order::validatePrice (Order.cpp): the price must be strictly positive and
`price * 10^pricedecimal` must be within tolerance `1e-8` of its nearest
integer.  `std::round` rounds half away from zero; for the strictly positive
products reached here this agrees with Lean's `round` (half up). -/
def Order.validatePrice (o : Order) (instrument : Instrument) : Bool :=
  if o.price ≤ 0 then
    false
  else
    let precisionFactor : ℚ := 10 ^ instrument.pricedecimal
    let multipliedPrice : ℚ := o.price * precisionFactor
    let roundedPrice : ℚ := (round multipliedPrice : ℤ)
    let tolerance : ℚ := 1 / 100000000
    if |multipliedPrice - roundedPrice| > tolerance then false else true

/-- Order::validateQuantity (Order.cpp): quantity strictly positive, integral
(`fmod(quantity, 1.0) == 0`, vacuous for `int`), and a multiple of the
instrument's lot size. C++ `%` truncates toward zero, hence `Int.tmod`. -/
def Order.validateQuantity (o : Order) (instrument : Instrument) : Bool :=
  if o.quantity ≤ 0 then false
  else if Int.tmod o.quantity 1 ≠ 0 then false
  else if Int.tmod o.quantity instrument.lotsize ≠ 0 then false
  else true

/-- The composite identity key of an instrument. -/
def tripleOf (i : Instrument) : Int × String × String :=
  (i.idinstrument, i.marketIdentificationCode, i.tradingCurrency)

/-- isUniqueInstrument (Utils.cpp): the instrument's key triple is not in the
set of already-registered triples (the `std::set` is modelled by the list of
its elements; only membership is observed). -/
def isUniqueInstrument (instrumentSet : List (Int × String × String))
    (instrument : Instrument) : Bool :=
  !(decide (tripleOf instrument ∈ instrumentSet))

/-- The private state of InstrumentManager (InstrumentManager.hpp). -/
structure InstrumentManagerState where
  instrumentSet : List (Int × String × String)
  instruments : List Instrument
deriving DecidableEq, Repr

/-- InstrumentManager::addInstrument (InstrumentManager.cpp): insert the key
into the set and append the instrument iff the key is new; report success. -/
def addInstrument (st : InstrumentManagerState) (instrument : Instrument) :
    Bool × InstrumentManagerState :=
  if isUniqueInstrument st.instrumentSet instrument then
    (true,
     { instrumentSet := tripleOf instrument :: st.instrumentSet
       instruments := st.instruments ++ [instrument] })
  else
    (false, st)

/-- The registry state reached by a sequence of addInstrument calls starting
from the empty registry. -/
def processRegs (regs : List Instrument) : InstrumentManagerState :=
  regs.foldl (fun st i => (addInstrument st i).2) ⟨[], []⟩

/-- One side of the book: the contents of a `std::map<double, std::deque<Order>>`
as an association list sorted by the map comparator. -/
abbrev Side := List (ℚ × List Order)

/-- Insert an order at the tail of the queue for price `p`, creating the
price level at its comparator-sorted position when absent (the effect of
`map[price].push_back(order)`). `before p q = true` means a level at price
`p` precedes one at price `q` in the map's iteration order. -/
def insertLevel (before : ℚ → ℚ → Bool) (p : ℚ) (o : Order) : Side → Side
  | [] => [(p, [o])]
  | (q, os) :: rest =>
    if p = q then (q, os ++ [o]) :: rest
    else if before p q then (p, [o]) :: (q, os) :: rest
    else (q, os) :: insertLevel before p o rest

/-- The statistics block of MatchingEngine (MatchingEngine.hpp); atomics are
modelled by plain fields since the claims quantify over serialised runs. -/
structure Stats where
  dailyTradeCount : Int
  dailyVolume : ℚ
  lastReset : Nat
  totalTradeCount : Int
  totalVolume : ℚ
  matchingAttempts : Int
  successfulMatches : Int
deriving DecidableEq, Repr

/-- MatchingEngine::updateStats (MatchingEngine.cpp): per-trade accumulator
update. -/
def updateStats (trade : Trade) (s : Stats) : Stats :=
  let tradeValue : ℚ := (trade.quantity : ℚ) * trade.price
  { s with
    dailyTradeCount := s.dailyTradeCount + 1
    dailyVolume := s.dailyVolume + tradeValue
    totalTradeCount := s.totalTradeCount + 1
    totalVolume := s.totalVolume + tradeValue
    successfulMatches := s.successfulMatches + 1 }

/-- The order book state (OrderBook.hpp): bid levels sorted by descending
price, ask levels by ascending price, the trade log, and the next trade id. -/
structure OrderBook where
  bidOrders : Side
  askOrders : Side
  trades : List Trade
  nextTradeId : Int
deriving DecidableEq, Repr

/-- The empty order book (OrderBook's constructor: `nextTradeId = 1`). -/
def OrderBook.empty : OrderBook :=
  { bidOrders := [], askOrders := [], trades := [], nextTradeId := 1 }

/-- OrderBook::addOrder (OrderBook.cpp): append the order to the queue of its
price level on its own side. Bid levels iterate in descending price order
(`std::greater`), ask levels in ascending order. -/
def OrderBook.addOrder (book : OrderBook) (order : Order) : OrderBook :=
  match order.ordertype with
  | OrderType.BID =>
    { book with bidOrders := insertLevel (fun p q => decide (q < p)) order.price order book.bidOrders }
  | OrderType.ASK =>
    { book with askOrders := insertLevel (fun p q => decide (p < q)) order.price order book.askOrders }

/-- Per-side body of OrderBook::cleanupExecutedOrders: erase orders with
`quantity == 0` from every queue, then erase price levels whose queues became
empty, preserving the relative order of everything kept. -/
def cleanupSide (s : Side) : Side :=
  (s.map (fun pq => (pq.1, pq.2.filter (fun o => !(o.quantity == 0))))).filter
    (fun pq => !pq.2.isEmpty)

/-- OrderBook::cleanupExecutedOrders (OrderBook.cpp). -/
def cleanupExecutedOrders (book : OrderBook) : OrderBook :=
  { book with
    bidOrders := cleanupSide book.bidOrders
    askOrders := cleanupSide book.askOrders }

/-- Compatibility of a bid and an ask (OrderBook.cpp, matchOrders): equal
(instrument, market, currency) routing triples. -/
def compatible (bidOrder askOrder : Order) : Bool :=
  bidOrder.idinstrument == askOrder.idinstrument &&
  bidOrder.marketIdentificationCode == askOrder.marketIdentificationCode &&
  bidOrder.tradingCurrency == askOrder.tradingCurrency

/-- Scan of the inner `for (auto& askOrder : lowestAskIt->second)` loop: find
the first ask compatible with `b`, returned as a zipper
`(preceding asks, the ask, following asks)` so that the in-place quantity
update can be expressed by reassembling the queue. -/
def findCompatInAsks (b : Order) : List Order → Option (List Order × Order × List Order)
  | [] => none
  | a :: as =>
    if compatible b a then some ([], a, as)
    else (findCompatInAsks b as).map (fun z => (a :: z.1, z.2.1, z.2.2))

/-- Scan of the outer `for (auto& bidOrder : highestBidIt->second)` loop: the
first (bid, ask) pair, in bid-major order, whose routing triples agree,
each returned as a zipper into its queue. -/
def findCompatPair (aq : List Order) :
    List Order → Option ((List Order × Order × List Order) × (List Order × Order × List Order))
  | [] => none
  | b :: bs =>
    match findCompatInAsks b aq with
    | some z => some (([], b, bs), z)
    | none =>
      (findCompatPair aq bs).map (fun w => ((b :: w.1.1, w.1.2.1, w.1.2.2), w.2))

/-- All orders of one side in traversal order (levels in map order, each
queue front to back). -/
def flattenSide : Side → List Order
  | [] => []
  | (_, q) :: rest => q ++ flattenSide rest

/-- All orders of the book, bids then asks, in traversal order. -/
def allOrders (book : OrderBook) : List Order :=
  flattenSide book.bidOrders ++ flattenSide book.askOrders

/-- Number of orders resting in the book. -/
def orderCount (book : OrderBook) : Nat :=
  (allOrders book).length

/-- The loop of OrderBook::matchOrders (OrderBook.cpp), with fuel bounding the
number of iterations. Each iteration: stop if a side is empty or the best bid
is below the best ask; otherwise search the two top-of-book queues for the
first compatible pair. If none is found, run the cleanup pass and stop
(`matchFound == false`). Otherwise emit one trade at the resting ask's price
for the minimum of the two remaining quantities, decrement both quantities,
run the cleanup pass and loop. `min` zeroes at least one of the two matched
orders, so cleanup removes it and the fuel-exhaustion branch is unreachable
from `orderCount book + 1` units of fuel. -/
def matchOrdersGo (now : Nat) : Nat → OrderBook → Stats → Nat → OrderBook × Stats × Nat
  | 0, book, stats, acc => (book, stats, acc)
  | fuel + 1, book, stats, acc =>
    match book.bidOrders, book.askOrders with
    | [], _ => (book, stats, acc)
    | _ :: _, [] => (book, stats, acc)
    | (bp, bq) :: brest, (ap, aq) :: arest =>
      if bp < ap then (book, stats, acc)
      else
        match findCompatPair aq bq with
        | none =>
          (cleanupExecutedOrders
             { book with bidOrders := (bp, bq) :: brest, askOrders := (ap, aq) :: arest },
           stats, acc)
        | some ((bpre, bid, bpost), (apre, ask, apost)) =>
          let tradeQuantity := min bid.quantity ask.quantity
          let trade : Trade :=
            { tradeId := book.nextTradeId
              buyOrderId := bid.idorder
              sellOrderId := ask.idorder
              marketIdentificationCode := bid.marketIdentificationCode
              tradingCurrency := bid.tradingCurrency
              price := ask.price
              quantity := tradeQuantity
              timestamp := now }
          let book' : OrderBook :=
            cleanupExecutedOrders
              { bidOrders := (bp, bpre ++ { bid with quantity := bid.quantity - tradeQuantity } :: bpost) :: brest
                askOrders := (ap, apre ++ { ask with quantity := ask.quantity - tradeQuantity } :: apost) :: arest
                trades := book.trades ++ [trade]
                nextTradeId := book.nextTradeId + 1 }
          matchOrdersGo now fuel book' (updateStats trade stats) (acc + 1)

/-- OrderBook::matchOrders: run the sweep loop to completion; the result is
the new book, the statistics after the per-trade notifyMatch updates (the
book's back-pointer to the engine is always set in the engine context), and
the number of trades executed during this call. -/
def matchOrders (now : Nat) (book : OrderBook) (stats : Stats) : OrderBook × Stats × Nat :=
  matchOrdersGo now (orderCount book + 1) book stats 0

/-- OrderBook::getLastTrade (OrderBook.cpp). -/
def getLastTrade (book : OrderBook) : Option Trade :=
  book.trades.getLast?

/-- The serialised state of the MatchingEngine (MatchingEngine.hpp): the
registry, the book, the statistics block and the running flag. -/
structure EngineState where
  manager : InstrumentManagerState
  book : OrderBook
  stats : Stats
  isRunning : Bool
deriving DecidableEq, Repr

/-- Instrument-lookup predicate of MatchingEngine::addAndValidateOrder: the
instrument whose routing triple equals the order's. -/
def matchesTriple (instrument : Instrument) (order : Order) : Bool :=
  instrument.idinstrument == order.idinstrument &&
  instrument.marketIdentificationCode == order.marketIdentificationCode &&
  instrument.tradingCurrency == order.tradingCurrency

/-- MatchingEngine::addAndValidateOrder (MatchingEngine.cpp): find the first
registered instrument matching the order's routing triple (the loop breaks at
the first hit); run both validators against it; on success insert the order
into the book, run an immediate matching sweep, and — when the sweep produced
at least one trade — call updateStats once more on the book's last trade (in
addition to the per-trade notifyMatch updates inside the sweep); return
whether the order was accepted. On any failure the state is left unchanged. -/
def addAndValidateOrder (now : Nat) (st : EngineState) (order : Order) :
    Bool × EngineState :=
  match st.manager.instruments.find? (fun i => matchesTriple i order) with
  | none => (false, st)
  | some instrument =>
    if order.validatePrice instrument && order.validateQuantity instrument then
      let book₁ := st.book.addOrder order
      let r := matchOrders now book₁ st.stats
      let stats' :=
        if 0 < r.2.2 then
          match getLastTrade r.1 with
          | some t => updateStats t r.2.1
          | none => r.2.1
        else r.2.1
      (true, { st with book := r.1, stats := stats' })
    else
      (false, st)

/-- The removal predicate of MatchingEngine::checkGTDOrders: a GTD order whose
expiration date has passed. -/
def gtdExpired (now : Nat) (o : Order) : Bool :=
  o.timeinforce == TimeInForce.GTD && decide (o.expirationDate ≤ now)

/-- MatchingEngine::checkGTDOrders (MatchingEngine.cpp): erase from every
queue of both sides the GTD orders whose `expirationDate ≤ now`
(`std::remove_if` keeps the relative order of the survivors; price levels are
not erased, even when their queue becomes empty). -/
def checkGTDOrders (now : Nat) (book : OrderBook) : OrderBook :=
  { book with
    bidOrders := book.bidOrders.map (fun pq => (pq.1, pq.2.filter (fun o => !gtdExpired now o)))
    askOrders := book.askOrders.map (fun pq => (pq.1, pq.2.filter (fun o => !gtdExpired now o))) }

/-- MatchingEngine::resetDailyStats (MatchingEngine.cpp): zero the daily
counters and the attempt/success counters and stamp the reset time; the
lifetime totals are kept. -/
def resetDailyStats (now : Nat) (s : Stats) : Stats :=
  { s with
    dailyTradeCount := 0
    dailyVolume := 0
    matchingAttempts := 0
    successfulMatches := 0
    lastReset := now }

/-- The daily-reset step of the worker loop (MatchingEngine::run, the
`now - lastStatsReset > 24h` branch): it calls resetDailyStats and prints;
nothing else of the engine state is touched. -/
def dailyResetStep (now : Nat) (st : EngineState) : EngineState :=
  { st with stats := resetDailyStats now st.stats }

/-- MatchingEngine::start (MatchingEngine.cpp): when the engine is stopped,
store zero into every statistics counter — the daily ones, the attempt and
success counters, and also the lifetime totalTradeCount and totalVolume —
stamp the reset time and set the running flag. -/
def start (now : Nat) (st : EngineState) : EngineState :=
  if st.isRunning then st
  else
    { st with
      isRunning := true
      stats :=
        { dailyTradeCount := 0
          dailyVolume := 0
          lastReset := now
          totalTradeCount := 0
          totalVolume := 0
          matchingAttempts := 0
          successfulMatches := 0 } }

/-! Derived predicates used to state the claims. -/

/-- A book is well formed when every resting order has a strictly positive
remaining quantity and no price level has an empty queue. Every book built
from validated submissions and matching sweeps satisfies this. -/
def WellFormedBook (b : OrderBook) : Prop :=
  (∀ o ∈ allOrders b, 0 < o.quantity) ∧
  (∀ pq ∈ b.bidOrders, pq.2 ≠ []) ∧
  (∀ pq ∈ b.askOrders, pq.2 ≠ [])

/-- The guaranteed post-state of a sweep: a side is empty, or the best bid
price is below the best ask price, or the two top-of-book queues contain no
compatible (bid, ask) pair. -/
def uncrossedTop (b : OrderBook) : Bool :=
  match b.bidOrders, b.askOrders with
  | [], _ => true
  | _ :: _, [] => true
  | (bp, bq) :: _, (ap, aq) :: _ =>
    decide (bp < ap) || bq.all (fun bo => aq.all (fun ao => !compatible bo ao))

/-- The claimed post-state of a sweep (claim C1 / spec P5): a side is empty,
or every compatible resting (bid, ask) pair — at any depth of the book —
has the bid price strictly below the ask price. -/
def claimNoCrossedCompat (b : OrderBook) : Bool :=
  b.bidOrders.isEmpty || b.askOrders.isEmpty ||
  (flattenSide b.bidOrders).all (fun bo =>
    (flattenSide b.askOrders).all (fun ao =>
      !compatible bo ao || decide (bo.price < ao.price)))

/-- Bid levels are strictly descending in price. -/
def bidPricesSorted (s : Side) : Prop :=
  (s.map Prod.fst).Pairwise (· > ·)

/-- Ask levels are strictly ascending in price. -/
def askPricesSorted (s : Side) : Prop :=
  (s.map Prod.fst).Pairwise (· < ·)

/-- Every per-price queue is ordered front-to-back by non-decreasing
submission timestamp. -/
def queuesByTime (s : Side) : Prop :=
  ∀ pq ∈ s, (pq.2.map Order.priority).Pairwise (· ≤ ·)

/-- Every order rests in the queue of its own price. -/
def levelPricesMatch (s : Side) : Prop :=
  ∀ pq ∈ s, ∀ o ∈ pq.2, o.price = pq.1

/-- Price-time priority: traversing each side in its map order and each
queue front to back yields better prices first and, within a price level,
earlier priority timestamps first. -/
def PTP (b : OrderBook) : Prop :=
  bidPricesSorted b.bidOrders ∧ askPricesSorted b.askOrders ∧
  queuesByTime b.bidOrders ∧ queuesByTime b.askOrders ∧
  levelPricesMatch b.bidOrders ∧ levelPricesMatch b.askOrders

/-- Total quantity carried by the orders of a list that bear a given id. -/
def qsum (l : List Order) (id : Int) : Int :=
  ((l.filter (fun o => o.idorder == id)).map (fun o => o.quantity)).sum

/-- The total remaining quantity resting in the book under a given order id
(zero once the order is fully filled and removed). -/
def remSum (b : OrderBook) (id : Int) : Int :=
  qsum (allOrders b) id

/-- Sum of the traded quantity over the trades involving a given order id
as buy or sell side. -/
def sumInvolving (ts : List Trade) (id : Int) : Int :=
  ((ts.filter (fun t => t.buyOrderId == id || t.sellOrderId == id)).map
    (fun t => t.quantity)).sum

/-- All order ids in the book are pairwise distinct (an order id is unique
within the session). -/
def idsDistinct (b : OrderBook) : Prop :=
  ((allOrders b).map (fun o => o.idorder)).Pairwise (· ≠ ·)

/-- The registered instruments have pairwise distinct identity triples (the
registry invariant established by addInstrument). -/
def triplesDistinct (l : List Instrument) : Prop :=
  l.Pairwise (fun a b => tripleOf a ≠ tripleOf b)

/-- Coherence of the two containers of InstrumentManager: the key set holds
exactly the triples of the stored instruments. -/
def managerInv (st : InstrumentManagerState) : Prop :=
  ∀ k, k ∈ st.instrumentSet ↔ ∃ i ∈ st.instruments, tripleOf i = k

instance (b : OrderBook) : Decidable (WellFormedBook b) := by
  rw [WellFormedBook]; infer_instance

instance (b : OrderBook) : Decidable (idsDistinct b) := by
  rw [idsDistinct]; infer_instance

instance (l : List Instrument) : Decidable (triplesDistinct l) := by
  rw [triplesDistinct]; infer_instance

instance (b : OrderBook) : Decidable (PTP b) := by
  simp only [PTP, bidPricesSorted, askPricesSorted, queuesByTime, levelPricesMatch]
  infer_instance

/-! Concrete instruments, orders and states used by the scenario claims,
the witnesses and the counterexamples. -/

/-- Scenario instrument `(1, "XPAR", "EUR", lot = 100, price_decimal = 2)`. -/
def instrA : Instrument :=
  { idinstrument := 1, marketIdentificationCode := "XPAR", tradingCurrency := "EUR",
    name := "ALPHA", issue := 1, state := State.ACTIVE, refprice := 150,
    idtradinggroup := 1, lotsize := 100, pricedecimal := 2,
    currentorderid := 0, currenttradeid := 0, idapf := 0 }

/-- A second instrument `(2, "XPAR", "EUR", lot = 100, price_decimal = 2)`. -/
def instrB : Instrument :=
  { idinstrument := 2, marketIdentificationCode := "XPAR", tradingCurrency := "EUR",
    name := "BETA", issue := 1, state := State.ACTIVE, refprice := 100,
    idtradinggroup := 1, lotsize := 100, pricedecimal := 2,
    currentorderid := 0, currenttradeid := 0, idapf := 0 }

/-- Shorthand for building a DAY limit order. -/
def mkOrder (id : Int) (instr : Int) (side : OrderType) (p : ℚ) (q : Int)
    (ts : Nat) : Order :=
  { idorder := id, marketIdentificationCode := "XPAR", tradingCurrency := "EUR",
    priority := ts, price := p, quantity := q, originalqty := q,
    timeinforce := TimeInForce.DAY, ordertype := side,
    limitType := LimitType.LIMIT, idinstrument := instr, idfirm := 1,
    expirationDate := 0 }

/-- The all-zero statistics block. -/
def zeroStats : Stats :=
  { dailyTradeCount := 0, dailyVolume := 0, lastReset := 0,
    totalTradeCount := 0, totalVolume := 0,
    matchingAttempts := 0, successfulMatches := 0 }

/-- Engine state with instruments A and B registered, an empty book, zeroed
statistics and the engine running. -/
def st0 : EngineState :=
  { manager := processRegs [instrA, instrB], book := OrderBook.empty,
    stats := zeroStats, isRunning := true }

/-- Scenario 1, first submission: BID id 1001, price 155.00, qty 300. -/
def scenBid : Order := mkOrder 1001 1 OrderType.BID 155 300 0

/-- Scenario 1, second submission: ASK id 2001, price 148.00, qty 200. -/
def scenAsk : Order := mkOrder 2001 1 OrderType.ASK 148 200 0

/-- Engine state after the first scenario-1 submission. -/
def stAfterBid : EngineState := (addAndValidateOrder 0 st0 scenBid).2

/-- Engine state after both scenario-1 submissions. -/
def stAfterAsk : EngineState := (addAndValidateOrder 0 stAfterBid scenAsk).2

/-- The single trade scenario 1 produces. -/
def scenTrade : Trade :=
  { tradeId := 1, buyOrderId := 1001, sellOrderId := 2001,
    marketIdentificationCode := "XPAR", tradingCurrency := "EUR",
    price := 148, quantity := 200, timestamp := 0 }

/-- Claim C1 counterexample, submission 1: BID id 11 on instrument B at 99. -/
def cxBidB : Order := mkOrder 11 2 OrderType.BID 99 100 0

/-- Claim C1 counterexample, submission 2: BID id 12 on instrument A at 100
(it becomes the top of the bid book). -/
def cxBidA : Order := mkOrder 12 1 OrderType.BID 100 100 0

/-- Claim C1 counterexample, submission 3: ASK id 13 on instrument B at 98.
It crosses the resting instrument-B bid at 99, but the sweep only scans the
two top-of-book queues, whose only pair (bid on A, ask on B) is
incompatible. -/
def cxAskB : Order := mkOrder 13 2 OrderType.ASK 98 100 0

/-- Book state after the three counterexample submissions: the sweep run by
the third submission returns with the compatible instrument-B pair still
crossed (bid 99 ≥ ask 98) one level below the top of the bid book. -/
def cxState : EngineState :=
  (addAndValidateOrder 0
    (addAndValidateOrder 0 (addAndValidateOrder 0 st0 cxBidB).2 cxBidA).2
    cxAskB).2

/-- The book just before the counterexample sweep: the two resting bids plus
the freshly inserted instrument-B ask (this is exactly the book the third
submission hands to OrderBook::matchOrders). -/
def cxPreBook : OrderBook :=
  (((addAndValidateOrder 0 (addAndValidateOrder 0 st0 cxBidB).2 cxBidA).2).book).addOrder
    cxAskB

/-- The scenario-1 book just before the second submission's sweep: the
resting bid 1001 plus the freshly inserted ask 2001. -/
def scenCrossBook : OrderBook :=
  (stAfterBid.book).addOrder scenAsk

/-! Helper lemmas. -/

attribute [local semireducible] Rat.mul Rat.add Rat.sub Rat.inv

theorem findCompatInAsks_eq_some {b a : Order} {aq pre post : List Order}
    (h : findCompatInAsks b aq = some (pre, a, post)) :
    aq = pre ++ a :: post ∧ compatible b a = true := by
  induction aq generalizing pre a post with
  | nil => simp [findCompatInAsks] at h
  | cons x xs ih =>
    rw [findCompatInAsks] at h
    by_cases hc : compatible b x = true
    · simp only [hc, if_true, Option.some.injEq, Prod.mk.injEq] at h
      obtain ⟨h1, h2, h3⟩ := h
      subst h1; subst h2; subst h3
      exact ⟨rfl, hc⟩
    · simp only [hc, if_false, Bool.false_eq_true] at h
      rcases hfa : findCompatInAsks b xs with _ | ⟨⟨p', a', q'⟩⟩ <;> rw [hfa] at h
      · simp at h
      · simp only [Option.map_some', Option.some.injEq, Prod.mk.injEq] at h
        obtain ⟨h1, h2, h3⟩ := h
        subst h1; subst h2; subst h3
        obtain ⟨hd, hcc⟩ := ih hfa
        subst hd
        exact ⟨rfl, hcc⟩

theorem findCompatInAsks_eq_none {b : Order} {aq : List Order}
    (h : findCompatInAsks b aq = none) : ∀ a ∈ aq, compatible b a = false := by
  induction aq with
  | nil => simp
  | cons x xs ih =>
    rw [findCompatInAsks] at h
    by_cases hc : compatible b x = true
    · simp [hc] at h
    · simp only [hc, if_false, Bool.false_eq_true, Option.map_eq_none'] at h
      intro a ha
      rcases List.mem_cons.mp ha with rfl | ha'
      · exact Bool.eq_false_iff.mpr hc
      · exact ih h a ha'

theorem findCompatPair_eq_some {aq bq bpre bpost apre apost : List Order} {bid ask : Order}
    (h : findCompatPair aq bq = some ((bpre, bid, bpost), (apre, ask, apost))) :
    bq = bpre ++ bid :: bpost ∧ aq = apre ++ ask :: apost ∧ compatible bid ask = true := by
  induction bq generalizing bpre bid bpost apre ask apost with
  | nil => simp [findCompatPair] at h
  | cons x xs ih =>
    rw [findCompatPair] at h
    rcases hfa : findCompatInAsks x aq with _ | ⟨⟨p', a', q'⟩⟩ <;> rw [hfa] at h
    · rcases hfp : findCompatPair aq xs with _ | ⟨⟨⟨bp', b', bq'⟩, ap', a'', aq''⟩⟩ <;> rw [hfp] at h
      · simp at h
      · simp only [Option.map_some', Option.some.injEq, Prod.mk.injEq] at h
        obtain ⟨⟨h1, h2, h3⟩, h4, h5, h6⟩ := h
        subst h1; subst h2; subst h3; subst h4; subst h5; subst h6
        obtain ⟨hb, ha, hcc⟩ := ih hfp
        subst hb
        exact ⟨rfl, ha, hcc⟩
    · simp only [Option.some.injEq, Prod.mk.injEq] at h
      obtain ⟨⟨h1, h2, h3⟩, h4, h5, h6⟩ := h
      subst h1; subst h2; subst h3; subst h4; subst h5; subst h6
      obtain ⟨ha, hcc⟩ := findCompatInAsks_eq_some hfa
      exact ⟨rfl, ha, hcc⟩

theorem findCompatPair_eq_none {aq bq : List Order}
    (h : findCompatPair aq bq = none) :
    ∀ b ∈ bq, ∀ a ∈ aq, compatible b a = false := by
  induction bq with
  | nil => simp
  | cons x xs ih =>
    rw [findCompatPair] at h
    rcases hfa : findCompatInAsks x aq with _ | z <;> rw [hfa] at h
    · simp only [Option.map_eq_none'] at h
      intro b hb a ha
      rcases List.mem_cons.mp hb with rfl | hb'
      · exact findCompatInAsks_eq_none hfa a ha
      · exact ih h b hb' a ha
    · simp at h

theorem flattenSide_cleanupSide (s : Side) :
    flattenSide (cleanupSide s) =
      (flattenSide s).filter (fun o => !(o.quantity == 0)) := by
  induction s with
  | nil => rfl
  | cons pq rest ih =>
    obtain ⟨p, q⟩ := pq
    by_cases he : (q.filter (fun o => !(o.quantity == 0))).isEmpty
    · have hq : q.filter (fun o => !(o.quantity == 0)) = [] :=
        List.isEmpty_iff.mp he
      simp only [cleanupSide, List.map_cons, List.filter_cons, he, Bool.not_true,
        flattenSide, List.filter_append, hq, List.nil_append, if_false,
        Bool.false_eq_true]
      exact ih
    · have he' : (!(q.filter (fun o => !(o.quantity == 0))).isEmpty) = true := by
        simp [he]
      simp only [cleanupSide, List.map_cons, List.filter_cons, he', if_true,
        flattenSide, List.filter_append]
      exact congrArg _ ih

theorem allOrders_cleanupExecutedOrders (b : OrderBook) :
    allOrders (cleanupExecutedOrders b) =
      (allOrders b).filter (fun o => !(o.quantity == 0)) := by
  simp [allOrders, cleanupExecutedOrders, flattenSide_cleanupSide, List.filter_append]

theorem length_filter_lt_of_mem {α : Type} {p : α → Bool} {l : List α} {x : α}
    (hx : x ∈ l) (hpx : p x = false) : (l.filter p).length < l.length := by
  induction l with
  | nil => cases hx
  | cons a as ih =>
    rcases List.mem_cons.mp hx with rfl | hx'
    · rw [List.filter_cons, hpx]
      simp only [Bool.false_eq_true, if_false, List.length_cons]
      exact Nat.lt_succ_of_le (List.length_filter_le _ _)
    · rw [List.filter_cons]
      by_cases hpa : p a = true
      · simp only [hpa, if_true, List.length_cons]
        exact Nat.succ_lt_succ (ih hx')
      · simp only [hpa, if_false, List.length_cons, Bool.false_eq_true]
        exact Nat.lt_succ_of_lt (ih hx')

theorem orderCount_cleanup_lt {b : OrderBook} {o : Order}
    (ho : o ∈ allOrders b) (hq : o.quantity = 0) :
    orderCount (cleanupExecutedOrders b) < orderCount b := by
  rw [orderCount, orderCount, allOrders_cleanupExecutedOrders]
  exact length_filter_lt_of_mem ho (by simp [hq])

theorem qsum_nil (id : Int) : qsum [] id = 0 := rfl

theorem qsum_cons (o : Order) (l : List Order) (id : Int) :
    qsum (o :: l) id = (if o.idorder = id then o.quantity else 0) + qsum l id := by
  by_cases h : o.idorder = id
  · simp [qsum, List.filter_cons, h]
  · simp [qsum, List.filter_cons, h]

theorem qsum_append (l₁ l₂ : List Order) (id : Int) :
    qsum (l₁ ++ l₂) id = qsum l₁ id + qsum l₂ id := by
  simp [qsum, List.filter_append]

theorem qsum_filter_nonzero (l : List Order) (id : Int) :
    qsum (l.filter (fun o => !(o.quantity == 0))) id = qsum l id := by
  induction l with
  | nil => rfl
  | cons o rest ih =>
    by_cases hz : o.quantity = 0
    · rw [List.filter_cons]
      simp only [hz, beq_self_eq_true, Bool.not_true, if_false, Bool.false_eq_true]
      rw [qsum_cons, ih, hz]
      simp
    · rw [List.filter_cons]
      have : (!(o.quantity == 0)) = true := by simp [hz]
      simp only [this, if_true]
      rw [qsum_cons, qsum_cons, ih]

theorem remSum_cleanupExecutedOrders (b : OrderBook) (id : Int) :
    remSum (cleanupExecutedOrders b) id = remSum b id := by
  rw [remSum, remSum, allOrders_cleanupExecutedOrders, qsum_filter_nonzero]

theorem matchOrdersGo_trades_prefix (now : Nat) :
    ∀ (fuel : Nat) (book : OrderBook) (stats : Stats) (acc : Nat),
      book.trades <+: ((matchOrdersGo now fuel book stats acc).1).trades := by
  intro fuel
  induction fuel with
  | zero => intro book stats acc; exact List.prefix_refl _
  | succ n ih =>
    intro book stats acc
    rcases book with ⟨bids, asks, tr, nid⟩
    rcases bids with _ | ⟨⟨bp, bq⟩, brest⟩
    · exact List.prefix_refl _
    rcases asks with _ | ⟨⟨ap, aq⟩, arest⟩
    · exact List.prefix_refl _
    by_cases hlt : bp < ap
    · simp only [matchOrdersGo, hlt, if_true]
      exact List.prefix_refl _
    rcases hF : findCompatPair aq bq with _ | ⟨⟨⟨bpre, bid, bpost⟩, apre, ask, apost⟩⟩
    · simp only [matchOrdersGo, hlt, if_false, hF, cleanupExecutedOrders]
      exact List.prefix_refl _
    · simp only [matchOrdersGo, hlt, if_false, hF]
      refine List.IsPrefix.trans ?_ (ih _ _ _)
      exact ⟨_, rfl⟩

theorem sumInvolving_nil (id : Int) : sumInvolving [] id = 0 := rfl

theorem sumInvolving_cons (t : Trade) (ts : List Trade) (id : Int) :
    sumInvolving (t :: ts) id =
      (if t.buyOrderId = id ∨ t.sellOrderId = id then t.quantity else 0) +
        sumInvolving ts id := by
  by_cases h : t.buyOrderId = id ∨ t.sellOrderId = id
  · have hb : (t.buyOrderId == id || t.sellOrderId == id) = true := by
      rcases h with h | h <;> simp [h]
    simp [sumInvolving, List.filter_cons, hb, h]
  · push_neg at h
    have hb : (t.buyOrderId == id || t.sellOrderId == id) = false := by
      simp [h.1, h.2]
    simp [sumInvolving, List.filter_cons, hb, h.1, h.2]

theorem idsDistinct_cross {b : OrderBook} (h : idsDistinct b) {x y : Order}
    (hx : x ∈ flattenSide b.bidOrders) (hy : y ∈ flattenSide b.askOrders) :
    x.idorder ≠ y.idorder := by
  rw [idsDistinct, allOrders, List.map_append] at h
  exact (List.pairwise_append.mp h).2.2 _ (List.mem_map_of_mem _ hx) _
    (List.mem_map_of_mem _ hy)

theorem matchOrdersGo_conserv (now : Nat) (id : Int) :
    ∀ (fuel : Nat) (book : OrderBook) (stats : Stats) (acc : Nat),
      idsDistinct book →
      ∃ ts, ((matchOrdersGo now fuel book stats acc).1).trades = book.trades ++ ts ∧
        remSum book id =
          remSum ((matchOrdersGo now fuel book stats acc).1) id + sumInvolving ts id := by
  intro fuel
  induction fuel with
  | zero =>
    intro book stats acc _
    exact ⟨[], by simp [matchOrdersGo], by simp [matchOrdersGo, sumInvolving_nil]⟩
  | succ n ih =>
    intro book stats acc hdist
    rcases book with ⟨bids, asks, tr, nid⟩
    rcases bids with _ | ⟨⟨bp, bq⟩, brest⟩
    · exact ⟨[], by simp [matchOrdersGo], by simp [matchOrdersGo, sumInvolving_nil]⟩
    rcases asks with _ | ⟨⟨ap, aq⟩, arest⟩
    · exact ⟨[], by simp [matchOrdersGo], by simp [matchOrdersGo, sumInvolving_nil]⟩
    by_cases hlt : bp < ap
    · refine ⟨[], ?_, ?_⟩ <;> simp [matchOrdersGo, hlt, sumInvolving_nil]
    rcases hF : findCompatPair aq bq with _ | ⟨⟨⟨bpre, bid, bpost⟩, apre, ask, apost⟩⟩
    · refine ⟨[], ?_, ?_⟩
      · simp [matchOrdersGo, hlt, hF, cleanupExecutedOrders]
      · simp only [matchOrdersGo, hlt, if_false, hF, sumInvolving_nil, Bool.false_eq_true]
        rw [remSum_cleanupExecutedOrders]
        simp
    · obtain ⟨hb, ha, hcc⟩ := findCompatPair_eq_some hF
      subst hb; subst ha
      simp only [matchOrdersGo, hlt, if_false, hF, Bool.false_eq_true]
      set tq := min bid.quantity ask.quantity with htq
      set bid' : Order := { bid with quantity := bid.quantity - tq } with hbid'
      set ask' : Order := { ask with quantity := ask.quantity - tq } with hask'
      set trade : Trade :=
        { tradeId := nid, buyOrderId := bid.idorder, sellOrderId := ask.idorder,
          marketIdentificationCode := bid.marketIdentificationCode,
          tradingCurrency := bid.tradingCurrency,
          price := ask.price, quantity := tq, timestamp := now } with htr
      set bookX : OrderBook :=
        { bidOrders := (bp, bpre ++ bid' :: bpost) :: brest
          askOrders := (ap, apre ++ ask' :: apost) :: arest
          trades := tr ++ [trade]
          nextTradeId := nid + 1 } with hX
      have hids : List.Sublist
          ((allOrders (cleanupExecutedOrders bookX)).map (fun o => o.idorder))
          ((allOrders bookX).map (fun o => o.idorder)) := by
        rw [allOrders_cleanupExecutedOrders]
        exact List.Sublist.map _ (List.filter_sublist _)
      have hidsX : ((allOrders bookX).map (fun o => o.idorder)) =
          ((allOrders (OrderBook.mk ((bp, bpre ++ bid :: bpost) :: brest)
            ((ap, apre ++ ask :: apost) :: arest) tr nid)).map (fun o => o.idorder)) := by
        simp [hX, allOrders, flattenSide, hbid', hask']
      have hdist' : idsDistinct (cleanupExecutedOrders bookX) := by
        rw [idsDistinct]
        exact List.Pairwise.sublist (hidsX ▸ hids) hdist
      obtain ⟨ts, hts, hsum⟩ := ih (cleanupExecutedOrders bookX) (updateStats trade stats)
        (acc + 1) hdist'
      refine ⟨trade :: ts, ?_, ?_⟩
      · rw [hts]
        simp [hX, cleanupExecutedOrders]
      · have hclean := remSum_cleanupExecutedOrders bookX id
        have hne : bid.idorder ≠ ask.idorder := by
          refine idsDistinct_cross hdist ?_ ?_ <;> simp [flattenSide]
        have hq : remSum (OrderBook.mk ((bp, bpre ++ bid :: bpost) :: brest)
              ((ap, apre ++ ask :: apost) :: arest) tr nid) id =
            remSum bookX id +
              (if bid.idorder = id then tq else 0) +
              (if ask.idorder = id then tq else 0) := by
          simp only [remSum, hX, allOrders, flattenSide, qsum_append, qsum_cons]
          by_cases h1 : bid.idorder = id <;> by_cases h2 : ask.idorder = id <;>
            simp only [hbid', hask', h1, h2, if_true, if_false] <;> linarith
        rw [sumInvolving_cons, hq]
        have htqq : trade.quantity = tq := rfl
        have htbb : trade.buyOrderId = bid.idorder := rfl
        have htaa : trade.sellOrderId = ask.idorder := rfl
        by_cases h1 : bid.idorder = id <;> by_cases h2 : ask.idorder = id
        · exact absurd (h1.trans h2.symm) hne
        · rw [if_pos h1, if_neg h2, if_pos (by rw [htbb]; exact Or.inl h1)]
          linarith [hsum, hclean, htqq]
        · rw [if_neg h1, if_pos h2, if_pos (by rw [htaa]; exact Or.inr h2)]
          linarith [hsum, hclean, htqq]
        · rw [if_neg h1, if_neg h2,
            if_neg (by rw [htbb, htaa]; push_neg; exact ⟨h1, h2⟩)]
          linarith [hsum, hclean]

theorem cleanupSide_queue_ne_nil {s : Side} {pq : ℚ × List Order}
    (h : pq ∈ cleanupSide s) : pq.2 ≠ [] := by
  rw [cleanupSide] at h
  obtain ⟨h1, h2⟩ := List.mem_filter.mp h
  intro hc
  rw [hc] at h2
  simp at h2

theorem cleanupSide_eq_self {s : Side}
    (hq : ∀ o ∈ flattenSide s, o.quantity ≠ 0) (hne : ∀ pq ∈ s, pq.2 ≠ []) :
    cleanupSide s = s := by
  induction s with
  | nil => rfl
  | cons pq rest ih =>
    obtain ⟨p, q⟩ := pq
    have hfilter : q.filter (fun o => !(o.quantity == 0)) = q := by
      rw [List.filter_eq_self]
      intro a ha
      simp only [Bool.not_eq_true', beq_eq_false_iff_ne, ne_eq]
      exact hq a (by simp [flattenSide, ha])
    have hqne : q ≠ [] := hne (p, q) (List.mem_cons_self _ _)
    have hkeep : (!q.isEmpty) = true := by
      simp [List.isEmpty_iff, hqne]
    rw [cleanupSide, List.map_cons, List.filter_cons]
    simp only [hfilter, hkeep, if_true]
    rw [← cleanupSide]
    rw [ih (fun o ho => hq o (by simp [flattenSide, ho, List.mem_append]))
      (fun pq' hpq' => hne pq' (List.mem_cons_of_mem _ hpq'))]

theorem cleanupExecutedOrders_eq_self {b : OrderBook} (hwf : WellFormedBook b) :
    cleanupExecutedOrders b = b := by
  obtain ⟨hpos, hbne, hane⟩ := hwf
  rcases b with ⟨bids, asks, tr, nid⟩
  rw [cleanupExecutedOrders]
  have hb : cleanupSide bids = bids := by
    refine cleanupSide_eq_self (fun o ho => ?_) hbne
    have := hpos o (by simp [allOrders] at *; exact Or.inl ho)
    omega
  have ha : cleanupSide asks = asks := by
    refine cleanupSide_eq_self (fun o ho => ?_) hane
    have := hpos o (by simp [allOrders] at *; exact Or.inr ho)
    omega
  simp [hb, ha]

theorem matchStep_wf_count {bp ap : ℚ} {bpre bpost apre apost : List Order}
    {bid ask : Order} {brest arest : Side} {tr tr' : List Trade} {nid nid' : Int}
    (hwf : WellFormedBook (OrderBook.mk ((bp, bpre ++ bid :: bpost) :: brest)
      ((ap, apre ++ ask :: apost) :: arest) tr nid)) :
    WellFormedBook (cleanupExecutedOrders (OrderBook.mk
      ((bp, bpre ++ { bid with quantity := bid.quantity - min bid.quantity ask.quantity } :: bpost) :: brest)
      ((ap, apre ++ { ask with quantity := ask.quantity - min bid.quantity ask.quantity } :: apost) :: arest)
      tr' nid')) ∧
    orderCount (cleanupExecutedOrders (OrderBook.mk
      ((bp, bpre ++ { bid with quantity := bid.quantity - min bid.quantity ask.quantity } :: bpost) :: brest)
      ((ap, apre ++ { ask with quantity := ask.quantity - min bid.quantity ask.quantity } :: apost) :: arest)
      tr' nid')) <
    orderCount (OrderBook.mk ((bp, bpre ++ bid :: bpost) :: brest)
      ((ap, apre ++ ask :: apost) :: arest) tr nid) := by
  set tq := min bid.quantity ask.quantity with htq
  set bid' : Order := { bid with quantity := bid.quantity - tq } with hbid'
  set ask' : Order := { ask with quantity := ask.quantity - tq } with hask'
  set bookX : OrderBook := OrderBook.mk ((bp, bpre ++ bid' :: bpost) :: brest)
    ((ap, apre ++ ask' :: apost) :: arest) tr' nid' with hX
  have hbid'mem : bid' ∈ allOrders bookX := by
    simp [hX, allOrders, flattenSide]
  have hask'mem : ask' ∈ allOrders bookX := by
    simp [hX, allOrders, flattenSide]
  have hzero : ∃ o ∈ allOrders bookX, o.quantity = 0 := by
    rcases le_total bid.quantity ask.quantity with h | h
    · exact ⟨bid', hbid'mem, by simp [hbid']; omega⟩
    · exact ⟨ask', hask'mem, by simp [hask']; omega⟩
  have hcnteq : orderCount bookX =
      orderCount (OrderBook.mk ((bp, bpre ++ bid :: bpost) :: brest)
        ((ap, apre ++ ask :: apost) :: arest) tr nid) := by
    simp [hX, orderCount, allOrders, flattenSide]
  have hlt : orderCount (cleanupExecutedOrders bookX) <
      orderCount (OrderBook.mk ((bp, bpre ++ bid :: bpost) :: brest)
        ((ap, apre ++ ask :: apost) :: arest) tr nid) := by
    obtain ⟨o, ho, hoq⟩ := hzero
    have := orderCount_cleanup_lt ho hoq
    omega
  refine ⟨⟨?_, ?_, ?_⟩, hlt⟩
  · intro o ho
    rw [allOrders_cleanupExecutedOrders] at ho
    obtain ⟨ho1, ho2⟩ := List.mem_filter.mp ho
    have hnz : o.quantity ≠ 0 := by simpa using ho2
    have hcases : o = bid' ∨ o = ask' ∨
        o ∈ allOrders (OrderBook.mk ((bp, bpre ++ bid :: bpost) :: brest)
          ((ap, apre ++ ask :: apost) :: arest) tr nid) := by
      simp only [hX, allOrders, flattenSide, List.mem_append, List.mem_cons] at ho1 ⊢
      tauto
    rcases hcases with rfl | rfl | hmem
    · simp only [hbid'] at hnz ⊢
      simp at hnz ⊢
      omega
    · simp only [hask'] at hnz ⊢
      simp at hnz ⊢
      omega
    · exact hwf.1 o hmem
  · intro pq hpq
    exact cleanupSide_queue_ne_nil hpq
  · intro pq hpq
    exact cleanupSide_queue_ne_nil hpq

theorem matchOrdersGo_uncrossed (now : Nat) :
    ∀ (fuel : Nat) (book : OrderBook) (stats : Stats) (acc : Nat),
      WellFormedBook book → orderCount book < fuel →
      uncrossedTop ((matchOrdersGo now fuel book stats acc).1) = true := by
  intro fuel
  induction fuel with
  | zero => intro book stats acc _ hc; exact absurd hc (Nat.not_lt_zero _)
  | succ n ih =>
    intro book stats acc hwf hcount
    rcases book with ⟨bids, asks, tr, nid⟩
    rcases bids with _ | ⟨⟨bp, bq⟩, brest⟩
    · simp [matchOrdersGo, uncrossedTop]
    rcases asks with _ | ⟨⟨ap, aq⟩, arest⟩
    · simp [matchOrdersGo, uncrossedTop]
    by_cases hlt : bp < ap
    · simp [matchOrdersGo, hlt, uncrossedTop]
    rcases hF : findCompatPair aq bq with _ | ⟨⟨⟨bpre, bid, bpost⟩, apre, ask, apost⟩⟩
    · simp only [matchOrdersGo, hlt, if_false, hF, Bool.false_eq_true]
      rw [cleanupExecutedOrders_eq_self hwf]
      rw [uncrossedTop]
      have hnone := findCompatPair_eq_none hF
      simp only [Bool.or_eq_true, List.all_eq_true, decide_eq_true_eq]
      right
      intro bo hbo ao hao
      simp [hnone bo hbo ao hao]
    · obtain ⟨hb, ha, hcc⟩ := findCompatPair_eq_some hF
      subst hb; subst ha
      simp only [matchOrdersGo, hlt, if_false, hF, Bool.false_eq_true]
      obtain ⟨hwf', hlt'⟩ := matchStep_wf_count hwf
      refine ih _ _ _ hwf' ?_
      calc orderCount _ < orderCount (OrderBook.mk ((bp, bpre ++ bid :: bpost) :: brest)
            ((ap, apre ++ ask :: apost) :: arest) tr nid) := hlt'
        _ ≤ n := Nat.lt_succ_iff.mp hcount

theorem flattenSide_map_filter (f : Order → Bool) (s : Side) :
    flattenSide (s.map (fun pq => (pq.1, pq.2.filter f))) = (flattenSide s).filter f := by
  induction s with
  | nil => rfl
  | cons pq rest ih =>
    obtain ⟨p, q⟩ := pq
    simp [flattenSide, List.filter_append, ih]

/-! Claim theorems. -/

/-- Claim C1, counterexample: the claim quantifies over compatible pairs at
any depth of the book, but OrderBook::matchOrders only scans the two
top-of-book queues. Submitting a bid on instrument 2 at 99, a bid on
instrument 1 at 100 and an ask on instrument 2 at 98 leaves — after the
sweep triggered by the third submission — the compatible instrument-2 pair
(bid 99, ask 98) crossed one level below the top of the bid book, with
neither side empty. -/
theorem claim_C1_counterexample :
    claimNoCrossedCompat ((matchOrders 0 cxPreBook zeroStats).1) = false := by
  decide

/-- Claim C1, amended: after every return of a matching sweep on a
well-formed book (positive quantities, no empty price level), either one
side of the book is empty, or the best bid price is strictly below the best
ask price, or the two top-of-book queues contain no compatible (bid, ask)
pair; compatible crossed pairs below the top of book may remain. -/
theorem claim_C1_amended (now : Nat) (book : OrderBook) (stats : Stats)
    (hwf : WellFormedBook book) :
    uncrossedTop ((matchOrders now book stats).1) = true :=
  matchOrdersGo_uncrossed now (orderCount book + 1) book stats 0 hwf
    (Nat.lt_succ_self _)

/-- Witness for the amended claim C1 at the scenario-1 crossed book. -/
theorem claim_C1_amended_witness :
    uncrossedTop ((matchOrders 0 scenCrossBook zeroStats).1) = true :=
  claim_C1_amended 0 scenCrossBook zeroStats (by decide)

/-- Claim C4: quantity conservation over one sweep. The trades of the sweep
are exactly the suffix appended to the trade log, and for every order id the
drop in remaining quantity resting under that id (`original_qty` is never
modified, so this equals the sweep's change in `original_qty − remaining`)
equals the summed quantity of the sweep's trades involving that id. -/
theorem claim_C4_conservation (now : Nat) (book : OrderBook) (stats : Stats)
    (id : Int) (h : idsDistinct book) :
    ((matchOrders now book stats).1).trades =
        book.trades ++
          (((matchOrders now book stats).1).trades.drop book.trades.length) ∧
      remSum book id - remSum ((matchOrders now book stats).1) id =
        sumInvolving
          (((matchOrders now book stats).1).trades.drop book.trades.length) id := by
  obtain ⟨ts, hts, hsum⟩ :=
    matchOrdersGo_conserv now id (orderCount book + 1) book stats 0 h
  rw [matchOrders]
  have hdrop : ((matchOrdersGo now (orderCount book + 1) book stats 0).1).trades.drop
      book.trades.length = ts := by
    rw [hts, List.drop_left]
  rw [hdrop]
  exact ⟨hts, by linarith⟩

/-- Witness for claim C4 on the scenario-1 crossed book and order id 1001. -/
theorem claim_C4_conservation_witness :
    ((matchOrders 0 scenCrossBook zeroStats).1).trades =
        scenCrossBook.trades ++
          (((matchOrders 0 scenCrossBook zeroStats).1).trades.drop
            scenCrossBook.trades.length) ∧
      remSum scenCrossBook 1001 - remSum ((matchOrders 0 scenCrossBook zeroStats).1) 1001 =
        sumInvolving
          (((matchOrders 0 scenCrossBook zeroStats).1).trades.drop
            scenCrossBook.trades.length) 1001 :=
  claim_C4_conservation 0 scenCrossBook zeroStats 1001 (by decide)

/-- Claim C3: the trade made from the selected compatible pair carries
quantity `min(bid.remaining, ask.remaining)` and the resting ask's price;
and scenario 1 (bid 1001 at 155.00 for 300, then ask 2001 at 148.00 for 200
on instrument (1, "XPAR", "EUR")) produces exactly the trade
(buy 1001, sell 2001, qty 200, price 148.00), leaves bid 1001 resting with
remaining quantity 100 and removes the ask from the book. -/
theorem claim_C3_trade_price_qty :
    (∀ (now fuel : Nat) (book : OrderBook) (stats : Stats) (acc : Nat)
      (bp ap : ℚ) (bq aq : List Order) (brest arest : Side)
      (bpre bpost apre apost : List Order) (bid ask : Order),
      book.bidOrders = (bp, bq) :: brest →
      book.askOrders = (ap, aq) :: arest →
      ¬ bp < ap →
      findCompatPair aq bq = some ((bpre, bid, bpost), (apre, ask, apost)) →
      (((matchOrdersGo now (fuel + 1) book stats acc).1).trades.drop
          book.trades.length).head? =
        some { tradeId := book.nextTradeId, buyOrderId := bid.idorder,
               sellOrderId := ask.idorder,
               marketIdentificationCode := bid.marketIdentificationCode,
               tradingCurrency := bid.tradingCurrency, price := ask.price,
               quantity := min bid.quantity ask.quantity, timestamp := now }) ∧
    (addAndValidateOrder 0 st0 scenBid).1 = true ∧
    (addAndValidateOrder 0 stAfterBid scenAsk).1 = true ∧
    stAfterAsk.book.trades = [scenTrade] ∧
    stAfterAsk.book.bidOrders = [(155, [{ scenBid with quantity := 100 }])] ∧
    stAfterAsk.book.askOrders = [] := by
  refine ⟨?_, by decide, by decide, by decide, by decide, by decide⟩
  intro now fuel book stats acc bp ap bq aq brest arest bpre bpost apre apost bid ask
    hbo hao hlt hF
  rcases book with ⟨bids, asks, tr, nid⟩
  simp only at hbo hao
  subst hbo; subst hao
  simp only [matchOrdersGo, hlt, if_false, hF, Bool.false_eq_true]
  obtain ⟨rest, hrest⟩ := matchOrdersGo_trades_prefix now fuel _ (updateStats _ stats) (acc + 1)
  rw [← hrest]
  simp only [cleanupExecutedOrders]
  rw [List.append_assoc, List.drop_left]
  rfl

/-- Witness for the general part of claim C3 at the scenario-1 crossed book. -/
theorem claim_C3_trade_price_qty_witness :
    (((matchOrdersGo 0 3 scenCrossBook zeroStats 0).1).trades.drop
        scenCrossBook.trades.length).head? =
      some { tradeId := scenCrossBook.nextTradeId, buyOrderId := scenBid.idorder,
             sellOrderId := scenAsk.idorder,
             marketIdentificationCode := scenBid.marketIdentificationCode,
             tradingCurrency := scenBid.tradingCurrency, price := scenAsk.price,
             quantity := min scenBid.quantity scenAsk.quantity, timestamp := 0 } :=
  claim_C3_trade_price_qty.1 0 2 scenCrossBook zeroStats 0 155 148
    [scenBid] [scenAsk] [] [] [] [] [] [] scenBid scenAsk
    (by decide) (by decide) (by decide) (by decide)

/-- Claim C5 fails on the code (code bug): scenario 1's second submission
produces exactly one trade of value 200 × 148.00 = 29600, yet the daily and
lifetime trade counters advance by 2 and both notionals by 59200 —
addAndValidateOrder calls updateStats once more on the book's last trade on
top of the per-trade notifyMatch delivery already performed inside the
sweep, double-counting the last trade of every submission-triggered sweep. -/
theorem claim_C5_double_count :
    stAfterAsk.book.trades.length = 1 ∧
    stAfterAsk.stats.dailyTradeCount = 2 ∧
    stAfterAsk.stats.totalTradeCount = 2 ∧
    stAfterAsk.stats.dailyVolume = 59200 ∧
    stAfterAsk.stats.totalVolume = 59200 := by
  decide

/-- Claim C7, counterexample: the daily-reset step of the worker loop only
resets statistics; the DAY order resting after scenario 1 is still in the
book after the reset step. -/
theorem claim_C7_counterexample :
    ((flattenSide (dailyResetStep 86400 stAfterAsk).book.bidOrders).any
      (fun o => o.timeinforce == TimeInForce.DAY)) = true := by
  decide

/-- Claim C7, amended: the daily reset zeroes the daily counters and the
per-window attempt/success counters and stamps the reset time; it leaves the
book — and hence every DAY order — untouched, and keeps the lifetime
totals. -/
theorem claim_C7_amended (now : Nat) (st : EngineState) :
    (dailyResetStep now st).book = st.book ∧
    (dailyResetStep now st).stats.dailyTradeCount = 0 ∧
    (dailyResetStep now st).stats.dailyVolume = 0 ∧
    (dailyResetStep now st).stats.matchingAttempts = 0 ∧
    (dailyResetStep now st).stats.successfulMatches = 0 ∧
    (dailyResetStep now st).stats.lastReset = now ∧
    (dailyResetStep now st).stats.totalTradeCount = st.stats.totalTradeCount ∧
    (dailyResetStep now st).stats.totalVolume = st.stats.totalVolume :=
  ⟨rfl, rfl, rfl, rfl, rfl, rfl, rfl, rfl⟩

/-- Claim C8: one expiry sweep removes exactly the GTD orders whose
expiration is at or before `now` — each side's traversal afterwards is the
filtered original traversal, so every DAY order and every unexpired GTD
order is still present, unchanged and in its original position — and the
trade log is untouched. -/
theorem claim_C8_gtd_expiry (now : Nat) (book : OrderBook) :
    flattenSide ((checkGTDOrders now book).bidOrders) =
        (flattenSide book.bidOrders).filter (fun o => !gtdExpired now o) ∧
      flattenSide ((checkGTDOrders now book).askOrders) =
        (flattenSide book.askOrders).filter (fun o => !gtdExpired now o) ∧
      (∀ o ∈ allOrders book, gtdExpired now o = true →
        o ∉ allOrders (checkGTDOrders now book)) ∧
      (∀ o ∈ allOrders book, gtdExpired now o = false →
        o ∈ allOrders (checkGTDOrders now book)) ∧
      (checkGTDOrders now book).trades = book.trades := by
  refine ⟨flattenSide_map_filter _ _, flattenSide_map_filter _ _, ?_, ?_, rfl⟩
  · intro o _ hexp hmem
    simp only [allOrders, checkGTDOrders, List.mem_append] at hmem
    rw [flattenSide_map_filter, flattenSide_map_filter] at hmem
    rcases hmem with hmem | hmem <;>
      · obtain ⟨_, hkeep⟩ := List.mem_filter.mp hmem
        rw [hexp] at hkeep
        simp at hkeep
  · intro o ho hexp
    rw [allOrders, List.mem_append] at ho
    simp only [allOrders, checkGTDOrders, List.mem_append]
    rw [flattenSide_map_filter, flattenSide_map_filter]
    rcases ho with ho | ho
    · exact Or.inl (List.mem_filter.mpr ⟨ho, by simp [hexp]⟩)
    · exact Or.inr (List.mem_filter.mpr ⟨ho, by simp [hexp]⟩)

/-- Witness for claim C8 on the scenario-1 book one hour in. -/
theorem claim_C8_gtd_expiry_witness :
    flattenSide ((checkGTDOrders 3600 stAfterAsk.book).bidOrders) =
        (flattenSide stAfterAsk.book.bidOrders).filter
          (fun o => !gtdExpired 3600 o) ∧
      flattenSide ((checkGTDOrders 3600 stAfterAsk.book).askOrders) =
        (flattenSide stAfterAsk.book.askOrders).filter
          (fun o => !gtdExpired 3600 o) ∧
      (∀ o ∈ allOrders stAfterAsk.book, gtdExpired 3600 o = true →
        o ∉ allOrders (checkGTDOrders 3600 stAfterAsk.book)) ∧
      (∀ o ∈ allOrders stAfterAsk.book, gtdExpired 3600 o = false →
        o ∈ allOrders (checkGTDOrders 3600 stAfterAsk.book)) ∧
      (checkGTDOrders 3600 stAfterAsk.book).trades = stAfterAsk.book.trades :=
  claim_C8_gtd_expiry 3600 stAfterAsk.book

/-- Claim C10: start() on a stopped engine stores zero into every statistics
counter, the lifetime totalTradeCount and totalVolume included, so lifetime
totals do not survive a stop()/start() cycle. -/
theorem claim_C10_start_zeroes (now : Nat) (st : EngineState)
    (h : st.isRunning = false) :
    (start now st).stats.totalTradeCount = 0 ∧
    (start now st).stats.totalVolume = 0 ∧
    (start now st).stats.dailyTradeCount = 0 ∧
    (start now st).stats.dailyVolume = 0 ∧
    (start now st).stats.matchingAttempts = 0 ∧
    (start now st).stats.successfulMatches = 0 ∧
    (start now st).stats.lastReset = now ∧
    (start now st).isRunning = true := by
  simp [start, h]

/-- Witness for claim C10 on a stopped engine carrying non-zero totals. -/
theorem claim_C10_start_zeroes_witness :
    (start 7 { stAfterAsk with isRunning := false }).stats.totalTradeCount = 0 ∧
    (start 7 { stAfterAsk with isRunning := false }).stats.totalVolume = 0 ∧
    (start 7 { stAfterAsk with isRunning := false }).stats.dailyTradeCount = 0 ∧
    (start 7 { stAfterAsk with isRunning := false }).stats.dailyVolume = 0 ∧
    (start 7 { stAfterAsk with isRunning := false }).stats.matchingAttempts = 0 ∧
    (start 7 { stAfterAsk with isRunning := false }).stats.successfulMatches = 0 ∧
    (start 7 { stAfterAsk with isRunning := false }).stats.lastReset = 7 ∧
    (start 7 { stAfterAsk with isRunning := false }).isRunning = true :=
  claim_C10_start_zeroes 7 { stAfterAsk with isRunning := false } rfl

theorem matchesTriple_eq {i : Instrument} {o : Order} (h : matchesTriple i o = true) :
    tripleOf i = (o.idinstrument, o.marketIdentificationCode, o.tradingCurrency) := by
  simp only [matchesTriple, Bool.and_eq_true, beq_iff_eq] at h
  obtain ⟨⟨h1, h2⟩, h3⟩ := h
  simp [tripleOf, h1, h2, h3]

/-- Claim C2: the submission entry point accepts an order iff a registered
instrument matches its routing triple and both validators pass against that
instrument (the registry invariant guarantees at most one instrument per
triple); whenever it rejects, the whole engine state — in particular the
order book — is unchanged. -/
theorem claim_C2_validation (now : Nat) (st : EngineState) (o : Order)
    (hu : triplesDistinct st.manager.instruments) :
    ((addAndValidateOrder now st o).1 = true ↔
      ∃ i ∈ st.manager.instruments, matchesTriple i o = true ∧
        o.validatePrice i = true ∧ o.validateQuantity i = true) ∧
    ((addAndValidateOrder now st o).1 = false →
      ((addAndValidateOrder now st o).2).book = st.book ∧
        (addAndValidateOrder now st o).2 = st) := by
  have hsymm : Symmetric (fun a b : Instrument => tripleOf a ≠ tripleOf b) :=
    fun a b h e => h e.symm
  rcases hfind : st.manager.instruments.find? (fun i => matchesTriple i o)
    with _ | i
  · have hnone := List.find?_eq_none.mp hfind
    have hres : addAndValidateOrder now st o = (false, st) := by
      simp only [addAndValidateOrder, hfind]
    rw [hres]
    refine ⟨?_, fun _ => ⟨rfl, rfl⟩⟩
    constructor
    · intro h; cases h
    · rintro ⟨i, hi, hm, -, -⟩
      exact absurd hm (by simpa using hnone i hi)
  · have hm := List.find?_some hfind
    have hmem := List.mem_of_find?_eq_some hfind
    by_cases hv : (o.validatePrice i && o.validateQuantity i) = true
    · have hres : (addAndValidateOrder now st o).1 = true := by
        simp [addAndValidateOrder, hfind, hv]
      rw [hres]
      refine ⟨?_, ?_⟩
      · rw [Bool.and_eq_true] at hv
        exact ⟨fun _ => ⟨i, hmem, hm, hv.1, hv.2⟩, fun _ => rfl⟩
      · intro hfalse; cases hfalse
    · have hres : addAndValidateOrder now st o = (false, st) := by
        simp only [addAndValidateOrder, hfind]
        rw [if_neg hv]
      rw [hres]
      refine ⟨?_, fun _ => ⟨rfl, rfl⟩⟩
      constructor
      · intro h; cases h
      · rintro ⟨i', hi', hm', hp', hq'⟩
        have htri : tripleOf i = tripleOf i' :=
          (matchesTriple_eq hm).trans (matchesTriple_eq hm').symm
        have hii : i = i' := by
          by_contra hne
          exact List.Pairwise.forall hsymm hu hmem hi' hne htri
        rw [← hii] at hp' hq'
        exact absurd (by rw [Bool.and_eq_true]; exact ⟨hp', hq'⟩) hv

/-- Witness for claim C2 at the scenario-1 state and first order. -/
theorem claim_C2_validation_witness :
    (((addAndValidateOrder 0 st0 scenBid).1 = true ↔
      ∃ i ∈ st0.manager.instruments, matchesTriple i scenBid = true ∧
        scenBid.validatePrice i = true ∧ scenBid.validateQuantity i = true) ∧
     ((addAndValidateOrder 0 st0 scenBid).1 = false →
      ((addAndValidateOrder 0 st0 scenBid).2).book = st0.book ∧
        (addAndValidateOrder 0 st0 scenBid).2 = st0)) :=
  claim_C2_validation 0 st0 scenBid (by decide)

theorem isUniqueInstrument_iff (set : List (Int × String × String)) (i : Instrument) :
    isUniqueInstrument set i = true ↔ tripleOf i ∉ set := by
  simp [isUniqueInstrument]

theorem addInstrument_spec {st : InstrumentManagerState} (hinv : managerInv st)
    (i : Instrument) :
    ((addInstrument st i).1 = true ↔
      ∀ o ∈ st.instruments, tripleOf o ≠ tripleOf i) ∧
    ((addInstrument st i).1 = true →
      (addInstrument st i).2.instruments = st.instruments ++ [i] ∧
      (addInstrument st i).2.instrumentSet = tripleOf i :: st.instrumentSet) ∧
    ((addInstrument st i).1 = false → (addInstrument st i).2 = st) := by
  by_cases hu : isUniqueInstrument st.instrumentSet i = true
  · have hnotin := (isUniqueInstrument_iff _ _).mp hu
    have hstep : addInstrument st i =
        (true, { instrumentSet := tripleOf i :: st.instrumentSet
                 instruments := st.instruments ++ [i] }) := by
      rw [addInstrument, if_pos hu]
    rw [hstep]
    refine ⟨?_, fun _ => ⟨rfl, rfl⟩, fun hfalse => ?_⟩
    · constructor
      · intro _ o ho he
        exact hnotin ((hinv (tripleOf i)).mpr ⟨o, ho, he⟩)
      · intro _; rfl
    · cases hfalse
  · have hin : tripleOf i ∈ st.instrumentSet := by
      by_contra hc
      exact hu ((isUniqueInstrument_iff _ _).mpr hc)
    have hstep : addInstrument st i = (false, st) := by
      rw [addInstrument, if_neg hu]
    rw [hstep]
    refine ⟨?_, fun htrue => ?_, fun _ => rfl⟩
    · constructor
      · intro h; cases h
      · intro hall
        obtain ⟨o, ho, he⟩ := (hinv (tripleOf i)).mp hin
        exact absurd he (hall o ho)
    · cases htrue

theorem processRegs_append_singleton (l : List Instrument) (a : Instrument) :
    processRegs (l ++ [a]) = (addInstrument (processRegs l) a).2 := by
  simp [processRegs, List.foldl_append]

theorem processRegs_invariants (regs : List Instrument) :
    triplesDistinct (processRegs regs).instruments ∧
    managerInv (processRegs regs) ∧
    (∀ k, k ∈ (processRegs regs).instrumentSet ↔ ∃ r ∈ regs, tripleOf r = k) ∧
    (∀ o ∈ (processRegs regs).instruments,
      regs.find? (fun r => decide (tripleOf r = tripleOf o)) = some o) := by
  induction regs using List.reverseRecOn with
  | nil =>
    refine ⟨List.Pairwise.nil, ?_, ?_, ?_⟩ <;> simp [processRegs, managerInv]
  | append_singleton l a ih =>
    obtain ⟨hdist, hinv, hcov, hfirst⟩ := ih
    rw [processRegs_append_singleton]
    by_cases hu : isUniqueInstrument (processRegs l).instrumentSet a = true
    · have hnotin := (isUniqueInstrument_iff _ _).mp hu
      have hstep : (addInstrument (processRegs l) a).2 =
          { instrumentSet := tripleOf a :: (processRegs l).instrumentSet
            instruments := (processRegs l).instruments ++ [a] } := by
        rw [addInstrument, if_pos hu]
      rw [hstep]
      have hnoreg : ∀ r ∈ l, tripleOf r ≠ tripleOf a := by
        intro r hr he
        exact hnotin ((hcov (tripleOf a)).mpr ⟨r, hr, he⟩)
      refine ⟨?_, ?_, ?_, ?_⟩
      · rw [triplesDistinct, List.pairwise_append]
        refine ⟨hdist, List.pairwise_singleton _ _, ?_⟩
        intro o ho a' ha' he
        rw [List.mem_singleton] at ha'
        subst ha'
        exact hnotin (he ▸ (hinv (tripleOf o)).mpr ⟨o, ho, rfl⟩)
      · intro k
        simp only [List.mem_cons, List.mem_append, List.not_mem_nil, or_false]
        constructor
        · rintro (rfl | hk)
          · exact ⟨a, Or.inr rfl, rfl⟩
          · obtain ⟨o, ho, he⟩ := (hinv k).mp hk
            exact ⟨o, Or.inl ho, he⟩
        · rintro ⟨o, ho | rfl, he⟩
          · exact Or.inr ((hinv k).mpr ⟨o, ho, he⟩)
          · exact Or.inl he.symm
      · intro k
        simp only [List.mem_cons, List.mem_append, List.not_mem_nil, or_false]
        constructor
        · rintro (rfl | hk)
          · exact ⟨a, Or.inr rfl, rfl⟩
          · obtain ⟨r, hr, he⟩ := (hcov k).mp hk
            exact ⟨r, Or.inl hr, he⟩
        · rintro ⟨r, hr | rfl, he⟩
          · exact Or.inr ((hcov k).mpr ⟨r, hr, he⟩)
          · exact Or.inl he.symm
      · intro o ho
        rw [List.mem_append, List.mem_singleton] at ho
        rcases ho with ho | rfl
        · rw [List.find?_append, hfirst o ho]
          rfl
        · have hnone : l.find? (fun r => decide (tripleOf r = tripleOf o)) = none := by
            rw [List.find?_eq_none]
            intro r hr
            simp only [decide_eq_true_eq]
            exact hnoreg r hr
          rw [List.find?_append, hnone]
          simp
    · have hstep : (addInstrument (processRegs l) a).2 = processRegs l := by
        rw [addInstrument, if_neg hu]
      rw [hstep]
      have hin : tripleOf a ∈ (processRegs l).instrumentSet := by
        by_contra hc
        exact hu ((isUniqueInstrument_iff _ _).mpr hc)
      refine ⟨hdist, hinv, ?_, ?_⟩
      · intro k
        rw [hcov k]
        constructor
        · rintro ⟨r, hr, he⟩
          exact ⟨r, List.mem_append_left _ hr, he⟩
        · rintro ⟨r, hr, he⟩
          rw [List.mem_append, List.mem_singleton] at hr
          rcases hr with hr | rfl
          · exact ⟨r, hr, he⟩
          · exact (hcov k).mp (he ▸ hin)
      · intro o ho
        rw [List.find?_append, hfirst o ho]
        rfl

/-- Claim C9: after any sequence of registrations from the empty registry,
the stored instruments have pairwise distinct identity triples, each stored
instrument is the first registration carrying its triple, and one further
registration succeeds — appending the instrument — exactly when its triple
is new, while a conflicting registration returns false and leaves both the
key set and the instrument list unchanged. -/
theorem claim_C9_registry (regs : List Instrument) (i : Instrument) :
    triplesDistinct (processRegs regs).instruments ∧
    (∀ o ∈ (processRegs regs).instruments,
      regs.find? (fun r => decide (tripleOf r = tripleOf o)) = some o) ∧
    ((addInstrument (processRegs regs) i).1 = true ↔
      ∀ o ∈ (processRegs regs).instruments, tripleOf o ≠ tripleOf i) ∧
    ((addInstrument (processRegs regs) i).1 = true →
      (addInstrument (processRegs regs) i).2.instruments =
        (processRegs regs).instruments ++ [i]) ∧
    ((addInstrument (processRegs regs) i).1 = false →
      (addInstrument (processRegs regs) i).2 = processRegs regs) := by
  obtain ⟨hdist, hinv, -, hfirst⟩ := processRegs_invariants regs
  obtain ⟨hiff, happend, hfail⟩ := addInstrument_spec hinv i
  exact ⟨hdist, hfirst, hiff, fun h => (happend h).1, hfail⟩

/-- Witness for claim C9: registering A, then a name-variant of A sharing
its triple (rejected), then B. -/
theorem claim_C9_registry_witness :
    triplesDistinct (processRegs [instrA, { instrA with name := "A2" }]).instruments ∧
    (∀ o ∈ (processRegs [instrA, { instrA with name := "A2" }]).instruments,
      [instrA, { instrA with name := "A2" }].find?
        (fun r => decide (tripleOf r = tripleOf o)) = some o) ∧
    ((addInstrument (processRegs [instrA, { instrA with name := "A2" }]) instrB).1 = true ↔
      ∀ o ∈ (processRegs [instrA, { instrA with name := "A2" }]).instruments,
        tripleOf o ≠ tripleOf instrB) ∧
    ((addInstrument (processRegs [instrA, { instrA with name := "A2" }]) instrB).1 = true →
      (addInstrument (processRegs [instrA, { instrA with name := "A2" }]) instrB).2.instruments =
        (processRegs [instrA, { instrA with name := "A2" }]).instruments ++ [instrB]) ∧
    ((addInstrument (processRegs [instrA, { instrA with name := "A2" }]) instrB).1 = false →
      (addInstrument (processRegs [instrA, { instrA with name := "A2" }]) instrB).2 =
        processRegs [instrA, { instrA with name := "A2" }]) :=
  claim_C9_registry [instrA, { instrA with name := "A2" }] instrB

theorem mem_flattenSide {s : Side} {p : ℚ} {q : List Order} {x : Order}
    (hpq : (p, q) ∈ s) (hx : x ∈ q) : x ∈ flattenSide s := by
  induction s with
  | nil => cases hpq
  | cons pq rest ih =>
    rcases List.mem_cons.mp hpq with heq | hmem
    · obtain ⟨p₁, q₁⟩ := pq
      obtain ⟨he1, he2⟩ := Prod.mk.injEq .. ▸ heq
      rw [flattenSide, List.mem_append]
      exact Or.inl (he2 ▸ hx)
    · rw [flattenSide, List.mem_append]
      exact Or.inr (ih hmem)

theorem cleanupSide_keys_sublist (s : Side) :
    List.Sublist ((cleanupSide s).map Prod.fst) (s.map Prod.fst) := by
  induction s with
  | nil => simp [cleanupSide]
  | cons pq rest ih =>
    obtain ⟨p, q⟩ := pq
    rw [cleanupSide, List.map_cons, List.filter_cons]
    by_cases he : (!(q.filter (fun o => !(o.quantity == 0))).isEmpty) = true
    · simp only [he, if_true, List.map_cons]
      rw [← cleanupSide]
      exact List.Sublist.cons₂ _ ih
    · simp only [he, Bool.false_eq_true, if_false]
      rw [← cleanupSide]
      exact List.Sublist.cons _ ih

theorem mem_cleanupSide {s : Side} {pq : ℚ × List Order} (h : pq ∈ cleanupSide s) :
    ∃ q₀, (pq.1, q₀) ∈ s ∧ pq.2 = q₀.filter (fun o => !(o.quantity == 0)) := by
  rw [cleanupSide] at h
  obtain ⟨h1, h2⟩ := List.mem_filter.mp h
  obtain ⟨⟨p₀, q₀⟩, hmem, heq⟩ := List.mem_map.mp h1
  refine ⟨q₀, ?_, ?_⟩
  · rw [← heq]
    exact hmem
  · rw [← heq]

theorem queuesByTime_cleanupSide {s : Side} (h : queuesByTime s) :
    queuesByTime (cleanupSide s) := by
  intro pq hpq
  obtain ⟨q₀, hq₀, hfil⟩ := mem_cleanupSide hpq
  rw [hfil]
  exact List.Pairwise.sublist (List.Sublist.map _ (List.filter_sublist _))
    (h (pq.1, q₀) hq₀)

theorem levelPricesMatch_cleanupSide {s : Side} (h : levelPricesMatch s) :
    levelPricesMatch (cleanupSide s) := by
  intro pq hpq o ho
  obtain ⟨q₀, hq₀, hfil⟩ := mem_cleanupSide hpq
  rw [hfil] at ho
  exact h (pq.1, q₀) hq₀ o (List.mem_of_mem_filter ho)

theorem PTP_cleanupExecutedOrders {b : OrderBook} (h : PTP b) :
    PTP (cleanupExecutedOrders b) := by
  obtain ⟨h1, h2, h3, h4, h5, h6⟩ := h
  exact ⟨List.Pairwise.sublist (cleanupSide_keys_sublist _) h1,
    List.Pairwise.sublist (cleanupSide_keys_sublist _) h2,
    queuesByTime_cleanupSide h3, queuesByTime_cleanupSide h4,
    levelPricesMatch_cleanupSide h5, levelPricesMatch_cleanupSide h6⟩

theorem mapFilter_keys (f : Order → Bool) (s : Side) :
    ((s.map (fun pq => (pq.1, pq.2.filter f))).map Prod.fst) = s.map Prod.fst := by
  induction s with
  | nil => rfl
  | cons pq rest ih => simp [ih]

theorem queuesByTime_mapFilter (f : Order → Bool) {s : Side} (h : queuesByTime s) :
    queuesByTime (s.map (fun pq => (pq.1, pq.2.filter f))) := by
  intro pq hpq
  obtain ⟨⟨p₀, q₀⟩, hmem, heq⟩ := List.mem_map.mp hpq
  rw [← heq]
  exact List.Pairwise.sublist (List.Sublist.map _ (List.filter_sublist _))
    (h (p₀, q₀) hmem)

theorem levelPricesMatch_mapFilter (f : Order → Bool) {s : Side}
    (h : levelPricesMatch s) :
    levelPricesMatch (s.map (fun pq => (pq.1, pq.2.filter f))) := by
  intro pq hpq o ho
  obtain ⟨⟨p₀, q₀⟩, hmem, heq⟩ := List.mem_map.mp hpq
  rw [← heq] at ho ⊢
  exact h (p₀, q₀) hmem o (List.mem_of_mem_filter ho)

theorem PTP_checkGTDOrders (now : Nat) {b : OrderBook} (h : PTP b) :
    PTP (checkGTDOrders now b) := by
  obtain ⟨h1, h2, h3, h4, h5, h6⟩ := h
  refine ⟨?_, ?_, queuesByTime_mapFilter _ h3, queuesByTime_mapFilter _ h4,
    levelPricesMatch_mapFilter _ h5, levelPricesMatch_mapFilter _ h6⟩
  · rw [checkGTDOrders, bidPricesSorted, mapFilter_keys]
    exact h1
  · rw [checkGTDOrders, askPricesSorted, mapFilter_keys]
    exact h2

theorem insertLevel_keys_mem {before : ℚ → ℚ → Bool} {p : ℚ} {o : Order} :
    ∀ {s : Side} {k : ℚ}, k ∈ (insertLevel before p o s).map Prod.fst →
      k = p ∨ k ∈ s.map Prod.fst := by
  intro s
  induction s with
  | nil =>
    intro k hk
    simp [insertLevel] at hk
    exact Or.inl hk
  | cons pq rest ih =>
    obtain ⟨q, os⟩ := pq
    intro k hk
    rw [insertLevel] at hk
    by_cases hpq : p = q
    · rw [if_pos hpq] at hk
      simp only [List.map_cons, List.mem_cons] at hk ⊢
      tauto
    · rw [if_neg hpq] at hk
      by_cases hb : before p q = true
      · rw [if_pos hb] at hk
        simp only [List.map_cons, List.mem_cons] at hk ⊢
        tauto
      · rw [if_neg hb] at hk
        simp only [List.map_cons, List.mem_cons] at hk ⊢
        rcases hk with hk | hk
        · exact Or.inr (Or.inl hk)
        · rcases ih hk with hk' | hk'
          · exact Or.inl hk'
          · exact Or.inr (Or.inr hk')

theorem insertLevel_pairwise {r : ℚ → ℚ → Prop} {before : ℚ → ℚ → Bool}
    (hbt : ∀ a b, before a b = true → r a b)
    (hbf : ∀ a b, a ≠ b → before a b = false → r b a)
    (htr : ∀ {a b c}, r a b → r b c → r a c) {p : ℚ} {o : Order} :
    ∀ {s : Side}, ((s.map Prod.fst).Pairwise r) →
      (((insertLevel before p o s).map Prod.fst).Pairwise r) := by
  intro s
  induction s with
  | nil =>
    intro _
    simp [insertLevel]
  | cons pq rest ih =>
    obtain ⟨q, os⟩ := pq
    intro h
    rw [List.map_cons, List.pairwise_cons] at h
    obtain ⟨hq, hrest⟩ := h
    rw [insertLevel]
    by_cases hpq : p = q
    · rw [if_pos hpq, List.map_cons, List.pairwise_cons]
      exact ⟨hq, hrest⟩
    · rw [if_neg hpq]
      by_cases hb : before p q = true
      · rw [if_pos hb]
        simp only [List.map_cons, List.pairwise_cons, List.mem_cons]
        refine ⟨?_, hq, hrest⟩
        rintro k (rfl | hk)
        · exact hbt p k hb
        · exact htr (hbt p q hb) (hq k hk)
      · rw [if_neg hb]
        simp only [List.map_cons, List.pairwise_cons]
        refine ⟨?_, ih hrest⟩
        intro k hk
        rcases insertLevel_keys_mem hk with heq | hk'
        · rw [heq]
          exact hbf p q hpq (by simpa using hb)
        · exact hq k hk'

theorem insertLevel_queues {before : ℚ → ℚ → Bool} {p : ℚ} {o : Order} :
    ∀ {s : Side} {pq : ℚ × List Order}, pq ∈ insertLevel before p o s →
      pq ∈ s ∨ (∃ os, (pq.1, os) ∈ s ∧ pq.2 = os ++ [o] ∧ pq.1 = p) ∨ pq = (p, [o]) := by
  intro s
  induction s with
  | nil =>
    intro pq hpq
    simp [insertLevel] at hpq
    exact Or.inr (Or.inr hpq)
  | cons hd rest ih =>
    obtain ⟨q, os⟩ := hd
    intro pq hpq
    rw [insertLevel] at hpq
    by_cases hpq' : p = q
    · rw [if_pos hpq'] at hpq
      rcases List.mem_cons.mp hpq with rfl | hmem
      · exact Or.inr (Or.inl ⟨os, List.mem_cons_self _ _, rfl, hpq'.symm⟩)
      · exact Or.inl (List.mem_cons_of_mem _ hmem)
    · rw [if_neg hpq'] at hpq
      by_cases hb : before p q = true
      · rw [if_pos hb] at hpq
        rcases List.mem_cons.mp hpq with rfl | hmem
        · exact Or.inr (Or.inr rfl)
        · exact Or.inl hmem
      · rw [if_neg hb] at hpq
        rcases List.mem_cons.mp hpq with rfl | hmem
        · exact Or.inl (List.mem_cons_self _ _)
        · rcases ih hmem with h' | ⟨os', hos', he, hk⟩ | h'
          · exact Or.inl (List.mem_cons_of_mem _ h')
          · exact Or.inr (Or.inl ⟨os', List.mem_cons_of_mem _ hos', he, hk⟩)
          · exact Or.inr (Or.inr h')

theorem queuesByTime_insertLevel {before : ℚ → ℚ → Bool} {p : ℚ} {o : Order}
    {s : Side} (h : queuesByTime s)
    (hmono : ∀ x ∈ flattenSide s, x.priority ≤ o.priority) :
    queuesByTime (insertLevel before p o s) := by
  intro pq hpq
  rcases insertLevel_queues hpq with hmem | ⟨os, hos, he, -⟩ | heq
  · exact h pq hmem
  · rw [he, List.map_append, List.pairwise_append]
    refine ⟨h (pq.1, os) hos, by simp, ?_⟩
    intro a ha b hb
    obtain ⟨x, hx, hxa⟩ := List.mem_map.mp ha
    rw [List.map_singleton, List.mem_singleton] at hb
    subst hb
    subst hxa
    exact hmono x (mem_flattenSide hos hx)
  · rw [heq]
    simp

theorem levelPricesMatch_insertLevel {before : ℚ → ℚ → Bool} {o : Order}
    {s : Side} (h : levelPricesMatch s) :
    levelPricesMatch (insertLevel before o.price o s) := by
  intro pq hpq x hx
  rcases insertLevel_queues hpq with hmem | ⟨os, hos, he, hkey⟩ | heq
  · exact h pq hmem x hx
  · rw [he, List.mem_append, List.mem_singleton] at hx
    rcases hx with hx | rfl
    · exact h (pq.1, os) hos x hx
    · rw [hkey]
  · subst heq
    rw [List.mem_singleton] at hx
    subst hx
    rfl

theorem PTP_addOrder {b : OrderBook} {o : Order} (h : PTP b)
    (hmono : ∀ x ∈ allOrders b, x.priority ≤ o.priority) :
    PTP (b.addOrder o) := by
  obtain ⟨h1, h2, h3, h4, h5, h6⟩ := h
  have hmb : ∀ x ∈ flattenSide b.bidOrders, x.priority ≤ o.priority := by
    intro x hx
    exact hmono x (by rw [allOrders, List.mem_append]; exact Or.inl hx)
  have hma : ∀ x ∈ flattenSide b.askOrders, x.priority ≤ o.priority := by
    intro x hx
    exact hmono x (by rw [allOrders, List.mem_append]; exact Or.inr hx)
  cases ho : o.ordertype
  · simp only [OrderBook.addOrder, ho]
    refine ⟨?_, h2, ?_, h4, ?_, h6⟩
    · refine insertLevel_pairwise ?_ ?_ ?_ h1
      · intro a b hab
        exact of_decide_eq_true hab
      · intro a b hne hab
        exact lt_of_le_of_ne (le_of_not_lt (of_decide_eq_false hab)) hne
      · intro a b c hab hbc
        exact lt_trans hbc hab
    · exact queuesByTime_insertLevel h3 hmb
    · exact levelPricesMatch_insertLevel h5
  · simp only [OrderBook.addOrder, ho]
    refine ⟨h1, ?_, h3, ?_, h5, ?_⟩
    · refine insertLevel_pairwise ?_ ?_ ?_ h2
      · intro a b hab
        exact of_decide_eq_true hab
      · intro a b hne hab
        exact lt_of_le_of_ne (le_of_not_lt (of_decide_eq_false hab)) (Ne.symm hne)
      · intro a b c hab hbc
        exact lt_trans hab hbc
    · exact queuesByTime_insertLevel h4 hma
    · exact levelPricesMatch_insertLevel h6

theorem queuesByTime_cons_replace {bp : ℚ} {Q Q' : List Order} {rest : Side}
    (hQ : Q'.map Order.priority = Q.map Order.priority)
    (h : queuesByTime ((bp, Q) :: rest)) : queuesByTime ((bp, Q') :: rest) := by
  intro pq hpq
  rcases List.mem_cons.mp hpq with rfl | hmem
  · have := h (bp, Q) (List.mem_cons_self _ _)
    rw [hQ]
    exact this
  · exact h pq (List.mem_cons_of_mem _ hmem)

theorem levelPricesMatch_cons_replace {bp : ℚ} {Q Q' : List Order} {rest : Side}
    (hQ : Q'.map Order.price = Q.map Order.price)
    (h : levelPricesMatch ((bp, Q) :: rest)) : levelPricesMatch ((bp, Q') :: rest) := by
  intro pq hpq x hx
  rcases List.mem_cons.mp hpq with rfl | hmem
  · have hmm : x.price ∈ Q'.map Order.price := List.mem_map_of_mem _ hx
    rw [hQ] at hmm
    obtain ⟨x', hx', he⟩ := List.mem_map.mp hmm
    exact he ▸ h (bp, Q) (List.mem_cons_self _ _) x' hx'
  · exact h pq (List.mem_cons_of_mem _ hmem) x hx

theorem matchOrdersGo_PTP (now : Nat) :
    ∀ (fuel : Nat) (book : OrderBook) (stats : Stats) (acc : Nat),
      PTP book → PTP ((matchOrdersGo now fuel book stats acc).1) := by
  intro fuel
  induction fuel with
  | zero =>
    intro book stats acc h
    exact h
  | succ n ih =>
    intro book stats acc h
    rcases book with ⟨bids, asks, tr, nid⟩
    rcases bids with _ | ⟨⟨bp, bq⟩, brest⟩
    · exact h
    rcases asks with _ | ⟨⟨ap, aq⟩, arest⟩
    · exact h
    by_cases hlt : bp < ap
    · simp only [matchOrdersGo, hlt, if_true]
      exact h
    rcases hF : findCompatPair aq bq with _ | ⟨⟨⟨bpre, bid, bpost⟩, apre, ask, apost⟩⟩
    · simp only [matchOrdersGo, hlt, if_false, hF, Bool.false_eq_true]
      exact PTP_cleanupExecutedOrders h
    · obtain ⟨hb, ha, hcc⟩ := findCompatPair_eq_some hF
      subst hb; subst ha
      simp only [matchOrdersGo, hlt, if_false, hF, Bool.false_eq_true]
      refine ih _ _ _ (PTP_cleanupExecutedOrders ?_)
      obtain ⟨h1, h2, h3, h4, h5, h6⟩ := h
      refine ⟨h1, h2, ?_, ?_, ?_, ?_⟩
      · exact queuesByTime_cons_replace (by simp) h3
      · exact queuesByTime_cons_replace (by simp) h4
      · exact levelPricesMatch_cons_replace (by simp) h5
      · exact levelPricesMatch_cons_replace (by simp) h6

/-- Claim C6: price-time priority is preserved by every book operation.
Inserting an order whose priority timestamp is not earlier than those already
resting preserves it (the order joins the tail of its price queue, levels stay
sorted); a matching sweep — including its cleanup passes — preserves it
(a partial fill rewrites only a quantity, keeping queue position); the GTD
expiry sweep preserves it; and a cleanup pass removes exactly the
zero-quantity (fully filled) orders, keeping the survivors in their
traversal order. -/
theorem claim_C6_price_time_priority :
    (∀ (b : OrderBook) (o : Order), PTP b →
      (∀ x ∈ allOrders b, x.priority ≤ o.priority) → PTP (b.addOrder o)) ∧
    (∀ (now : Nat) (b : OrderBook) (stats : Stats), PTP b →
      PTP ((matchOrders now b stats).1)) ∧
    (∀ (now : Nat) (b : OrderBook), PTP b → PTP (checkGTDOrders now b)) ∧
    (∀ s : Side, flattenSide (cleanupSide s) =
      (flattenSide s).filter (fun o => !(o.quantity == 0))) :=
  ⟨fun _ _ h hm => PTP_addOrder h hm,
   fun now b stats h => matchOrdersGo_PTP now (orderCount b + 1) b stats 0 h,
   fun now _ h => PTP_checkGTDOrders now h,
   flattenSide_cleanupSide⟩

/-- Witness for claim C6 on the scenario-1 books. -/
theorem claim_C6_price_time_priority_witness :
    PTP (stAfterBid.book.addOrder scenAsk) ∧
    PTP ((matchOrders 0 scenCrossBook zeroStats).1) ∧
    PTP (checkGTDOrders 3600 stAfterAsk.book) ∧
    (flattenSide (cleanupSide [(155, [scenBid, { scenAsk with quantity := 0 }])]) =
      (flattenSide [(155, [scenBid, { scenAsk with quantity := 0 }])]).filter
        (fun o => !(o.quantity == 0))) :=
  ⟨claim_C6_price_time_priority.1 stAfterBid.book scenAsk (by decide) (by decide),
   claim_C6_price_time_priority.2.1 0 scenCrossBook zeroStats (by decide),
   claim_C6_price_time_priority.2.2.1 3600 stAfterAsk.book (by decide),
   claim_C6_price_time_priority.2.2.2 _⟩

end Engine
